import Mathlib

/-!
Shallow embedding of the product-image discovery pipeline of `src/agents.py`
(`ImageSearchAgent`): `scrape_product_images`, `validate_image`,
`find_product_image` (with its inner `score_image`), and
`fetch_image_data_uri`.

Modelling conventions:
* Network and library collaborators (`requests.get`, BeautifulSoup parsing,
  `urllib.parse.urljoin`, `urlparse(...).netloc`, the Tavily search tool,
  `PIL.Image.open`) are abstracted into a `Net` record of oracle functions.
  An `Except Unit _` result models a call that may raise a Python exception.
* A fetched HTML page is modelled by `Soup`: the parsed facts the code reads
  from it (the `og:image` meta content, the `twitter:image` meta content, the
  image URL contributed by each JSON-LD `<script>` block, and the list of
  `<img>` tags with their attributes).
* An image HTTP response is modelled by `ImgResp`: status, declared
  content type, body length in bytes, the base64 rendering of the body, and
  the decode outcome of `PIL.Image.open` on the body.
* Python string operations (`in`, `startswith`, `lower`, `split`) are
  re-implemented structurally over `List Char` so that they reduce in the
  kernel.
* Python `float` arithmetic on scores and ratios is modelled exactly over
  `ℚ`; every quantity the code manipulates there is a small exact value, so
  exact rational arithmetic agrees with the source.  `round(x, 2)` is
  round-half-to-even at two decimals (`aspectOf`), and rational values are
  built with `mkRat` and integer arithmetic so that they evaluate in the
  kernel (the library `Rat` field operations are irreducible).
* Python's stable `list.sort(key=…, reverse=True)` is modelled by a stable
  descending insertion sort `pySortDesc`.
-/

/-- Is `pat` a prefix of `s`?  Used to model Python `str.startswith`. -/
def isPrefOf : List Char → List Char → Bool
  | [], _ => true
  | _ :: _, [] => false
  | a :: as, b :: bs => (a == b) && isPrefOf as bs

/-- Does `pat` occur as a contiguous substring of `s`?
Models the Python `in` operator on strings (the empty pattern occurs in
every string, as in Python). -/
def occursIn (pat : List Char) : List Char → Bool
  | [] => pat.isEmpty
  | s@(_ :: rest) => isPrefOf pat s || occursIn pat rest

/-- Python `needle in hay` on strings. -/
def pyIn (needle hay : String) : Bool := occursIn needle.data hay.data

/-- Python `s.startswith(pre)`. -/
def pyStartsWith (s pre : String) : Bool := isPrefOf pre.data s.data

/-- Python `s.lower()` (ASCII case folding, which is all the code relies on). -/
def lowerStr (s : String) : String := (s.data.map Char.toLower).asString

/-- Worker for `pySplitWs`: accumulates the current word (reversed). -/
def splitWsGo : List Char → List Char → List (List Char)
  | [], acc => if acc.isEmpty then [] else [acc.reverse]
  | c :: cs, acc =>
    if c.isWhitespace then
      if acc.isEmpty then splitWsGo cs [] else acc.reverse :: splitWsGo cs []
    else splitWsGo cs (c :: acc)

/-- Python `s.split()`: split on whitespace runs, dropping empty pieces. -/
def pySplitWs (s : String) : List String := (splitWsGo s.data []).map List.asString

/-- Characters of a content type before the first `;`.
Models Python `content_type.split(';')[0]`. -/
def takeUntilSemi : List Char → List Char
  | [] => []
  | c :: cs => if c = ';' then [] else c :: takeUntilSemi cs

/-- Python `round(width / height, 2)` for positive `height`: round half to
even at two decimal places (the semantics of Python `round` on the exact
ratio), computed over integers so that it evaluates in the kernel.
`100*w/h = (100*w/h rounded down) + rem/h`; the half-way test compares
`2*rem` with `h`. -/
def aspectOf (w h : Nat) : ℚ :=
  let n := 100 * w
  let r := n / h
  let rem := n % h
  let rounded : Nat :=
    if 2 * rem < h then r
    else if h < 2 * rem then r + 1
    else if r % 2 = 0 then r else r + 1
  mkRat rounded 100

/-- An unvalidated image reference discovered during extraction: one of the
dicts appended to `image_candidates` in `scrape_product_images`.
`alt := none` models a dict without an `'alt'` key (the metadata-derived
candidates); the code later reads it with `candidate.get('alt', '')`. -/
structure Candidate where
  url : String
  source : String
  alt : Option String
  priority : Int
deriving DecidableEq

/-- Outcome of `PIL.Image.open` on a response body: intrinsic metadata of a
successfully decoded image. -/
structure Decoded where
  width : Nat
  height : Nat
  format : String
  mode : String
deriving DecidableEq

/-- Model of an HTTP response for an image URL.  The raw body is abstracted
by its byte length, its base64 rendering, and its decode outcome — the only
three ways the code consumes it.  `ok2xx = false` means
`raise_for_status()` raises; `decoded = none` means `Image.open` raises. -/
structure ImgResp where
  ok2xx : Bool
  contentType : String
  contentLen : Nat
  b64 : String
  decoded : Option Decoded
deriving DecidableEq

/-- An `<img>` tag as read by the code: the three source attributes, the
`alt` attribute and the `class` attribute (as the string BeautifulSoup hands
to a `class_` callable).  `none` models an absent attribute. -/
structure ImgTag where
  src : Option String
  dataSrc : Option String
  dataLazySrc : Option String
  alt : Option String
  classAttr : Option String
deriving DecidableEq

/-- Parsed page model: exactly the facts `scrape_product_images` reads from
the BeautifulSoup document.  `og`/`twitter` are the `content` attributes of
the corresponding meta tags (`none` when the tag or the attribute is
missing).  `jsonLd` has one entry per `<script type="application/ld+json">`:
`some s` when that block parses to a dict whose `image` key holds a string
(or a non-empty list, whose first element is taken), `none` when parsing
fails or the shape does not match. -/
structure Soup where
  og : Option String
  twitter : Option String
  jsonLd : List (Option String)
  imgs : List ImgTag
deriving DecidableEq

/-- The metadata dict built by `validate_image` (before `find_product_image`
merges in candidate info and bonuses). -/
structure VMeta where
  url : String
  width : Nat
  height : Nat
  format : String
  mode : String
  size_kb : ℚ
  aspect : ℚ
  has_product_keywords : Bool
deriving DecidableEq

/-- A validated image as it sits in `validated_images`: the `validate_image`
metadata merged with the originating candidate's `source`/`priority`/`alt`
and with the validation-time priority bonuses applied. -/
structure VImage where
  url : String
  width : Nat
  height : Nat
  format : String
  mode : String
  size_kb : ℚ
  aspect : ℚ
  has_product_keywords : Bool
  source : String
  priority : Int
  alt : String
deriving DecidableEq

/-- Oracles for every collaborator the pipeline calls.  Quantifying a theorem
over `Net` quantifies over all network conditions and collaborator
behaviours;  `Except.error` models a raised exception. -/
structure Net where
  fetchPage : String → Except Unit Soup
  fetchImage : String → Except Unit ImgResp
  search : String → Except Unit (Option (List (Option String)))
  urljoin : String → String → String
  netloc : String → String

/-- The trusted retail/manufacturer allow-list `self.official_domains`. -/
def officialDomains : List String :=
  ["amazon.com", "bestbuy.com", "walmart.com", "target.com",
   "newegg.com", "bhphotovideo.com", "apple.com", "samsung.com",
   "dell.com", "hp.com", "lenovo.com", "microsoft.com", "sony.com",
   "lg.com", "costco.com", "homedepot.com", "lowes.com"]

/-- Marker terms matched against an `<img>` class attribute. -/
def markerTerms : List String := ["product", "main", "primary", "hero", "gallery"]

/-- URL terms that exclude a generic `<img>` candidate. -/
def badTerms : List String := ["icon", "logo", "sprite", "pixel", "blank", "avatar"]

/-- `is_official`: does `urlparse(url).netloc.lower()` contain one of the
trusted domains? -/
def isOfficialDomain (net : Net) (url : String) : Bool :=
  officialDomains.any fun o => pyIn o (lowerStr (net.netloc url))

/-- First truthy value of a chain of `or`-ed attribute reads (Python `a or b
or c` followed by `if src:`): an absent attribute or an empty string is
falsy. -/
def firstTruthy : List (Option String) → Option String
  | [] => none
  | o :: os =>
    match o with
    | some s => if s = "" then firstTruthy os else some s
    | none => firstTruthy os

/-- The `class_` callable of the `find_all('img', class_=…)` filter. -/
def classMatch (t : ImgTag) : Bool :=
  match t.classAttr with
  | none => false
  | some x => if x = "" then false else markerTerms.any fun k => pyIn k (lowerStr x)

/-- Candidates from the `og:image` meta tag. -/
def ogCands (isOff : Bool) (soup : Soup) : List Candidate :=
  match soup.og with
  | some c => if c = "" then [] else [⟨c, "og_image", none, if isOff then 10 else 8⟩]
  | none => []

/-- Candidates from the `twitter:image` meta tag. -/
def twCands (isOff : Bool) (soup : Soup) : List Candidate :=
  match soup.twitter with
  | some c => if c = "" then [] else [⟨c, "twitter_image", none, if isOff then 9 else 7⟩]
  | none => []

/-- Candidates from the JSON-LD structured-data blocks (one per script that
contributes an image URL; note the code performs no truthiness check here). -/
def ldCands (isOff : Bool) (soup : Soup) : List Candidate :=
  soup.jsonLd.filterMap fun o =>
    o.map fun s => ⟨s, "json_ld", none, if isOff then 10 else 8⟩

/-- Candidates from the first five class-matched `<img>` tags. -/
def classCands (net : Net) (url name : String) (isOff : Bool) (soup : Soup) :
    List Candidate :=
  ((soup.imgs.filter classMatch).take 5).filterMap fun t =>
    match firstTruthy [t.src, t.dataSrc, t.dataLazySrc] with
    | none => none
    | some s =>
      let absu := net.urljoin url s
      if pyStartsWith absu "http" then
        let alt := t.alt.getD ""
        let p0 : Int := if isOff then 7 else 5
        let p : Int :=
          if name ≠ "" ∧ ((pySplitWs (lowerStr name)).take 3).any
              (fun kw => pyIn kw (lowerStr alt)) then p0 + 1 else p0
        some ⟨absu, "product_img_class", some alt, p⟩
      else none

/-- The generic `<img>` sweep: `acc` is the whole candidate list so far (the
code's length checks count the full, not-yet-deduplicated list), and the
sweep stops once it reaches 15 candidates in total. -/
def genericGo (net : Net) (url : String) (isOff : Bool) :
    List ImgTag → List Candidate → List Candidate
  | [], acc => acc
  | t :: ts, acc =>
    match firstTruthy [t.src, t.dataSrc] with
    | none => genericGo net url isOff ts acc
    | some s =>
      let absu := net.urljoin url s
      if pyStartsWith absu "http" &&
          !(badTerms.any fun b => pyIn b (lowerStr absu)) then
        let acc' := acc ++ [⟨absu, "img_tag", some (t.alt.getD ""),
          if isOff then 3 else 2⟩]
        if 15 ≤ acc'.length then acc' else genericGo net url isOff ts acc'
      else genericGo net url isOff ts acc

/-- The raw (pre-dedup) `image_candidates` list built by
`scrape_product_images` from a parsed page. -/
def extractRaw (net : Net) (url name : String) (soup : Soup) : List Candidate :=
  let isOff := isOfficialDomain net url
  let base := ogCands isOff soup ++ twCands isOff soup ++ ldCands isOff soup ++
    classCands net url name isOff soup
  if base.length < 5 then genericGo net url isOff soup.imgs base else base

/-- The final dedup pass of `scrape_product_images`: keep the first candidate
seen for each URL (`seen` is the `seen_urls` set). -/
def dedupGo (seen : List String) : List Candidate → List Candidate
  | [] => []
  | c :: cs =>
    if c.url ∈ seen then dedupGo seen cs
    else c :: dedupGo (c.url :: seen) cs

/-- `scrape_product_images(url, product_name)`: fetch + parse the page (any
raised exception is caught and yields `[]`), extract candidates, dedup. -/
def scrape_product_images (net : Net) (url name : String) : List Candidate :=
  match net.fetchPage url with
  | .error _ => []
  | .ok soup => dedupGo [] (extractRaw net url name soup)

/-- `validate_image(image_url, product_name)`: fetch the image bytes, check
the declared content type, decode, reject anything under 200px in either
dimension, and report the metadata dict.  Every exception path returns
`none`. -/
def validate_image (net : Net) (image_url product_name : String) : Option VMeta :=
  match net.fetchImage image_url with
  | .error _ => none
  | .ok r =>
    if !r.ok2xx then none
    else if !(pyIn "image" (lowerStr r.contentType)) then none
    else
      match r.decoded with
      | none => none
      | some d =>
        if d.width < 200 ∨ d.height < 200 then none
        else some
          { url := image_url
            width := d.width
            height := d.height
            format := d.format
            mode := d.mode
            size_kb := mkRat r.contentLen 1024
            aspect := aspectOf d.width d.height
            has_product_keywords := ((pySplitWs (lowerStr product_name)).take 3).any
              fun kw => pyIn kw (lowerStr image_url) }

/-- The candidate-info merge and priority boosts applied in
`find_product_image` right after a successful validation. -/
def boost (net : Net) (c : Candidate) (v : VMeta) : VImage :=
  let domain := lowerStr (net.netloc v.url)
  let p1 : Int := if officialDomains.any (fun o => pyIn o domain)
    then c.priority + 2 else c.priority
  let p2 : Int := if v.has_product_keywords then p1 + 1 else p1
  let p3 : Int := if 800 ≤ v.width ∧ 800 ≤ v.height then p2 + 1 else p2
  { url := v.url, width := v.width, height := v.height, format := v.format,
    mode := v.mode, size_kb := v.size_kb, aspect := v.aspect,
    has_product_keywords := v.has_product_keywords,
    source := c.source, priority := p3, alt := c.alt.getD "" }

/-- The validation loop of `find_product_image`: walk the (already
priority-sorted, already truncated to 10) candidate list, collect boosted
validated images, and stop once five are collected. -/
def validateLoop (net : Net) (name : String) :
    List Candidate → List VImage → List VImage
  | [], acc => acc
  | c :: cs, acc =>
    match validate_image net c.url name with
    | none => if 5 ≤ acc.length then acc else validateLoop net name cs acc
    | some v =>
      let acc' := acc ++ [boost net c v]
      if 5 ≤ acc'.length then acc' else validateLoop net name cs acc'

/-- `score_image(meta)`: the deterministic score of a validated image.  All
score contributions (`2.0`, `1.0`, `-1.0` on an integer-valued priority) are
integers, so the float score is computed exactly over `Int` and cast to `ℚ`
at the end; the aspect thresholds `0.6` and `1.8` are the rationals
`mkRat 6 10` and `mkRat 18 10`. -/
def score_image (m : VImage) : ℚ :=
  let s0 : Int := m.priority
  let s1 : Int :=
    if 800 ≤ m.width ∧ 800 ≤ m.height then s0 + 2
    else if 400 ≤ m.width ∧ 400 ≤ m.height then s0 + 1
    else s0
  let s2 : Int := if m.has_product_keywords then s1 + 1 else s1
  let s3 : Int := if m.aspect < mkRat 6 10 ∨ mkRat 18 10 < m.aspect
    then s2 - 1 else s2
  (s3 : ℚ)

/-- Stable descending insertion: `a` (originally earlier) goes before the
first element whose key is not larger. -/
def insertDesc {α β : Type} [LinearOrder β] (key : α → β) (a : α) :
    List α → List α
  | [] => [a]
  | b :: bs => if key a < key b then b :: insertDesc key a bs else a :: b :: bs

/-- Python `list.sort(key=…, reverse=True)`: the unique stable descending
sort (equal keys keep their original relative order). -/
def pySortDesc {α β : Type} [LinearOrder β] (key : α → β) : List α → List α
  | [] => []
  | a :: l => insertDesc key a (pySortDesc key l)

/-- First element attaining the maximal key (specification-side companion of
`pySortDesc`: the head of a stable descending sort). -/
def pickFirstMax {α β : Type} [LinearOrder β] (key : α → β) : List α → Option α
  | [] => none
  | a :: l =>
    match pickFirstMax key l with
    | none => some a
    | some w => if key a < key w then some w else some a

/-- The query string of the opt-in broader search. -/
def searchQuery (name : String) : String :=
  name ++ " site:amazon.com OR site:bestbuy.com OR site:walmart.com OR site:target.com official product"

/-- The broadening loop of `find_product_image`: scrape each search-result
page (entries without a `url` key are skipped) until 12 candidates are
accumulated. -/
def broadenGo (net : Net) (name : String) :
    List (Option String) → List Candidate → List Candidate
  | [], acc => acc
  | r :: rs, acc =>
    match r with
    | none => broadenGo net name rs acc
    | some u =>
      let acc' := acc ++ scrape_product_images net u name
      if 12 ≤ acc'.length then acc' else broadenGo net name rs acc'

/-- `all_candidates` as accumulated by `find_product_image` before sorting:
the primary-page scrape plus, when allowed and still short of five
candidates, up to three search-result pages.  A raised search exception
propagates (to be caught by the function's outer handler). -/
def candidatesOf (net : Net) (name url : String) (allow : Bool) :
    Except Unit (List Candidate) :=
  let all1 := if url ≠ "" ∧ pyStartsWith url "http" = true
    then scrape_product_images net url name else []
  if allow = true ∧ all1.length < 5 then
    match net.search (searchQuery name) with
    | .error e => .error e
    | .ok none => .ok all1
    | .ok (some results) => .ok (broadenGo net name (results.take 3) all1)
  else .ok all1

/-- The validation phase applied to the accumulated candidates: sort by base
priority (stable, descending), keep the top 10, validate with early stop at
five. -/
def validatePhase (net : Net) (name : String) (all : List Candidate) :
    List VImage :=
  validateLoop net name ((pySortDesc (fun c => c.priority) all).take 10) []

/-- The `validated_images` list of a `find_product_image` run (an `error`
means the run raised before validation, i.e. in the search call). -/
def validatedOf (net : Net) (name url : String) (allow : Bool) :
    Except Unit (List VImage) :=
  (candidatesOf net name url allow).map (validatePhase net name)

/-- The body of `find_product_image` inside its `try`: empty extraction
yields `""`; empty validation falls back to the best-priority unvalidated
candidate; otherwise the best-scoring validated image wins. -/
def find_core (net : Net) (name url : String) (allow : Bool) :
    Except Unit String :=
  (candidatesOf net name url allow).map fun all =>
    if all.isEmpty then ""
    else
      let validated := validatePhase net name all
      if validated.isEmpty then
        (((pySortDesc (fun c => c.priority) all).head?).map Candidate.url).getD ""
      else
        (((pySortDesc score_image validated).head?).map VImage.url).getD ""

/-- `find_product_image` with its outer `try/except` made explicit: a raised
exception inside the body is caught and turned into the normal return
`""`. -/
def find_product_imageE (net : Net) (name url : String) (allow : Bool) :
    Except Unit String :=
  match find_core net name url allow with
  | .ok s => .ok s
  | .error _ => .ok ""

/-- `find_product_image(product_name, product_url, allow_web_search)`:
the externally visible result string (`""` is the `NotFound` outcome). -/
def find_product_image (net : Net) (name url : String) (allow : Bool) : String :=
  (find_product_imageE net name url allow).toOption.getD ""

/-- `fetch_image_data_uri(image_url)`: re-fetch an image and render it as a
data URI; any failure, oversized body (over 2,500,000 bytes), non-image
content type, decode failure or undersized image yields `""`. -/
def fetch_image_data_uri (net : Net) (image_url : String) : String :=
  if image_url = "" then ""
  else
    match net.fetchImage image_url with
    | .error _ => ""
    | .ok r =>
      if !r.ok2xx then ""
      else if !(pyIn "image" (lowerStr r.contentType)) then ""
      else if 2500000 < r.contentLen then ""
      else
        match r.decoded with
        | none => ""
        | some d =>
          if d.width < 200 ∨ d.height < 200 then ""
          else
            let mime := if r.contentType = "" then "image/jpeg"
              else (takeUntilSemi r.contentType.data).asString
            "data:" ++ mime ++ ";base64," ++ r.b64

/-- The raw candidate list of one extraction run, before the dedup pass
(empty when the page fetch raised). -/
def rawCandidates (net : Net) (url name : String) : List Candidate :=
  match net.fetchPage url with
  | .error _ => []
  | .ok soup => extractRaw net url name soup

/-- Does every raw candidate's URL survive through its first-seen
representative?  For each raw candidate, the first raw candidate carrying
the same URL must be in the output list. -/
def firstSeenKept (raw out : List Candidate) : Bool :=
  raw.all fun c =>
    match raw.find? (fun d => decide (d.url = c.url)) with
    | some d => decide (d ∈ out)
    | none => false

/-- The absolute-URL guarantee the code actually enforces: candidates from
class-matched or generic `<img>` tags pass the code's own absoluteness test
`startswith('http')` (metadata-derived candidates are exempt). -/
def tagCandOk (c : Candidate) : Bool :=
  if c.source = "product_img_class" ∨ c.source = "img_tag"
  then pyStartsWith c.url "http" else true

/-- Scenario-A fixture: the trusted product page URL. -/
def p1 : String := "http://www.amazon.com/widget"

/-- Scenario-A fixture: the trusted structured-metadata image URL. -/
def img1 : String := "https://www.amazon.com/img/widget-main.jpg"

/-- Scenario-A fixture: a page exposing a single `og:image` reference. -/
def soup1 : Soup := { og := some img1, twitter := none, jsonLd := [], imgs := [] }

/-- Scenario-A fixture: the image response, a 1200x1200 JPEG. -/
def resp1 : ImgResp :=
  { ok2xx := true, contentType := "image/jpeg", contentLen := 500000,
    b64 := "QUJD", decoded := some ⟨1200, 1200, "JPEG", "RGB"⟩ }

/-- Scenario-A fixture: collaborator behaviour. -/
def net1 : Net :=
  { fetchPage := fun u => if u = p1 then .ok soup1 else .error ()
    fetchImage := fun u => if u = img1 then .ok resp1 else .error ()
    search := fun _ => .error ()
    urljoin := fun _ s => s
    netloc := fun u => if u = p1 then "www.amazon.com"
      else if u = img1 then "www.amazon.com" else "" }

/-- Scenario-A fixture: the one extracted candidate (trusted page, priority
10). -/
def cand1 : Candidate := ⟨img1, "og_image", none, 10⟩

/-- Scenario-A fixture: the validated metadata of `cand1`. -/
def v1 : VMeta :=
  { url := img1, width := 1200, height := 1200, format := "JPEG",
    mode := "RGB", size_kb := mkRat 500000 1024, aspect := 1,
    has_product_keywords := true }

/-- Scenario-A fixture: `cand1` after the validation-time bonuses
(10 + 2 trusted + 1 keyword + 1 resolution = 14). -/
def m1 : VImage :=
  { url := img1, width := 1200, height := 1200, format := "JPEG",
    mode := "RGB", size_kb := mkRat 500000 1024, aspect := 1,
    has_product_keywords := true, source := "og_image", priority := 14,
    alt := "" }

/-- Tie-break fixture: an untrusted page URL. -/
def p2 : String := "http://x.com/page"

/-- Tie-break fixture: the social-card image, discovered first. -/
def imgTw : String := "http://x.com/widget.jpg"

/-- Tie-break fixture: the structured-data image, discovered second. -/
def imgLd : String := "http://x.com/b.jpg"

/-- Tie-break fixture: a page exposing a twitter-card image and one JSON-LD
image. -/
def soup2 : Soup := { og := none, twitter := some imgTw, jsonLd := [some imgLd], imgs := [] }

/-- Tie-break fixture: the twitter image response, a 300x300 JPEG. -/
def respTw : ImgResp :=
  { ok2xx := true, contentType := "image/jpeg", contentLen := 10000,
    b64 := "", decoded := some ⟨300, 300, "JPEG", "RGB"⟩ }

/-- Tie-break fixture: the JSON-LD image response, a 500x500 PNG. -/
def respLd : ImgResp :=
  { ok2xx := true, contentType := "image/png", contentLen := 20000,
    b64 := "", decoded := some ⟨500, 500, "PNG", "RGB"⟩ }

/-- Tie-break fixture: collaborator behaviour — the twitter image is a
300x300 JPEG, the JSON-LD image a 500x500 PNG. -/
def net2 : Net :=
  { fetchPage := fun u => if u = p2 then .ok soup2 else .error ()
    fetchImage := fun u =>
      if u = imgTw then .ok respTw
      else if u = imgLd then .ok respLd
      else .error ()
    search := fun _ => .error ()
    urljoin := fun _ s => s
    netloc := fun _ => "x.com" }

/-- Tie-break fixture: the twitter candidate, extracted first (priority 7
untrusted). -/
def candTw : Candidate := ⟨imgTw, "twitter_image", none, 7⟩

/-- Tie-break fixture: the JSON-LD candidate, extracted second (priority 8
untrusted). -/
def candLd : Candidate := ⟨imgLd, "json_ld", none, 8⟩

/-- Tie-break fixture: the validated twitter image (priority 8 after the
keyword bonus; score 8 + 1 keyword = 9). -/
def mTw : VImage :=
  { url := imgTw, width := 300, height := 300, format := "JPEG",
    mode := "RGB", size_kb := mkRat 10000 1024, aspect := 1,
    has_product_keywords := true, source := "twitter_image", priority := 8,
    alt := "" }

/-- Tie-break fixture: the validated JSON-LD image (priority 8 unchanged;
score 8 + 1 resolution = 9). -/
def mLd : VImage :=
  { url := imgLd, width := 500, height := 500, format := "PNG",
    mode := "RGB", size_kb := mkRat 20000 1024, aspect := 1,
    has_product_keywords := false, source := "json_ld", priority := 8,
    alt := "" }

/-- Oversize fixture: an image URL whose response body is 3,000,000 bytes. -/
def u3 : String := "http://big.test/i.jpg"

/-- Oversize fixture: a 500x500 JPEG carried by a 3,000,000-byte body. -/
def resp3 : ImgResp :=
  { ok2xx := true, contentType := "image/jpeg", contentLen := 3000000,
    b64 := "", decoded := some ⟨500, 500, "JPEG", "RGB"⟩ }

/-- Oversize fixture: collaborator behaviour. -/
def net3 : Net :=
  { fetchPage := fun _ => .error ()
    fetchImage := fun u => if u = u3 then .ok resp3 else .error ()
    search := fun _ => .error ()
    urljoin := fun _ s => s
    netloc := fun _ => "big.test" }

/-- Oversize fixture: the metadata `validate_image` builds from the
3,000,000-byte response (size_kb = 3000000/1024). -/
def v3 : VMeta :=
  { url := u3, width := 500, height := 500, format := "JPEG", mode := "RGB",
    size_kb := mkRat 3000000 1024, aspect := 1, has_product_keywords := false }

/-- Fallback fixture: page URL whose two candidates both fail validation. -/
def p7 : String := "http://y.com/item"

/-- Fallback fixture: page exposing an og image and a twitter image. -/
def soup7 : Soup :=
  { og := some "http://y.com/a.jpg", twitter := some "http://y.com/b.jpg",
    jsonLd := [], imgs := [] }

/-- Fallback fixture: every image fetch raises, so validation yields
nothing. -/
def net7 : Net :=
  { fetchPage := fun u => if u = p7 then .ok soup7 else .error ()
    fetchImage := fun _ => .error ()
    search := fun _ => .error ()
    urljoin := fun _ s => s
    netloc := fun _ => "y.com" }

/-- Fallback fixture: the og candidate (priority 8, the highest). -/
def cand7a : Candidate := ⟨"http://y.com/a.jpg", "og_image", none, 8⟩

/-- Fallback fixture: the twitter candidate (priority 7). -/
def cand7b : Candidate := ⟨"http://y.com/b.jpg", "twitter_image", none, 7⟩

/-- Relative-URL fixture: a page whose `og:image` content is a relative
path. -/
def p8 : String := "http://u.com/p"

/-- Relative-URL fixture: the parsed page. -/
def soup8 : Soup := { og := some "/img/p.jpg", twitter := none, jsonLd := [], imgs := [] }

/-- Relative-URL fixture: collaborator behaviour. -/
def net8 : Net :=
  { fetchPage := fun u => if u = p8 then .ok soup8 else .error ()
    fetchImage := fun _ => .error ()
    search := fun _ => .error ()
    urljoin := fun _ s => s
    netloc := fun _ => "u.com" }

/-- Relative-URL fixture: the candidate built verbatim from the `og:image`
content. -/
def cand8 : Candidate := ⟨"/img/p.jpg", "og_image", none, 8⟩

/-- Monotonicity fixture: an arbitrary validated image. -/
def m9 : VImage :=
  { url := "http://a.test/b.jpg", width := 600, height := 600,
    format := "JPEG", mode := "RGB", size_kb := 10, aspect := 1,
    has_product_keywords := false, source := "img_tag", priority := 3,
    alt := "" }

/-- Inserting adds exactly one element. -/
theorem length_insertDesc {α β : Type} [LinearOrder β] (key : α → β) (a : α)
    (l : List α) : (insertDesc key a l).length = l.length + 1 := by
  induction l with
  | nil => rfl
  | cons b bs ih =>
    simp only [insertDesc]
    split <;> simp [ih]

/-- The stable sort is a length-preserving rearrangement. -/
theorem length_pySortDesc {α β : Type} [LinearOrder β] (key : α → β)
    (l : List α) : (pySortDesc key l).length = l.length := by
  induction l with
  | nil => rfl
  | cons a l ih =>
    simp only [pySortDesc]
    rw [length_insertDesc, ih]
    rfl

/-- The stable sort of a list is empty exactly when the list is. -/
theorem pySortDesc_eq_nil_iff {α β : Type} [LinearOrder β] (key : α → β)
    (l : List α) : pySortDesc key l = [] ↔ l = [] := by
  constructor
  · intro h
    have hl := length_pySortDesc key l
    rw [h] at hl
    exact List.length_eq_zero.mp hl.symm
  · intro h
    subst h
    rfl

/-- Membership through insertion. -/
theorem mem_insertDesc {α β : Type} [LinearOrder β] (key : α → β) (a x : α)
    (l : List α) : x ∈ insertDesc key a l ↔ x = a ∨ x ∈ l := by
  induction l with
  | nil => simp [insertDesc]
  | cons b bs ih =>
    simp only [insertDesc]
    split
    · simp only [List.mem_cons, ih]
      tauto
    · simp [List.mem_cons]

/-- Sorting preserves membership. -/
theorem mem_pySortDesc {α β : Type} [LinearOrder β] (key : α → β) (x : α)
    (l : List α) : x ∈ pySortDesc key l ↔ x ∈ l := by
  induction l with
  | nil => simp [pySortDesc]
  | cons a l ih => simp [pySortDesc, mem_insertDesc, ih]

/-- On a non-empty list, `pickFirstMax` finds something. -/
theorem pickFirstMax_cons_isSome {α β : Type} [LinearOrder β] (key : α → β)
    (a : α) (t : List α) : (pickFirstMax key (a :: t)).isSome = true := by
  cases hp : pickFirstMax key t with
  | none => simp [pickFirstMax, hp]
  | some w =>
    simp only [pickFirstMax, hp]
    split <;> rfl

/-- `pickFirstMax` finds nothing only on the empty list. -/
theorem pickFirstMax_eq_none_iff {α β : Type} [LinearOrder β] (key : α → β)
    (l : List α) : pickFirstMax key l = none ↔ l = [] := by
  cases l with
  | nil => simp [pickFirstMax]
  | cons a t =>
    constructor
    · intro h
      have hs := pickFirstMax_cons_isSome key a t
      rw [h] at hs
      simp at hs
    · intro h
      exact List.noConfusion h

/-- The head of the stable descending sort is the first maximum. -/
theorem head?_pySortDesc {α β : Type} [LinearOrder β] (key : α → β)
    (l : List α) : (pySortDesc key l).head? = pickFirstMax key l := by
  induction l with
  | nil => rfl
  | cons a l ih =>
    cases hs : pySortDesc key l with
    | nil =>
      have hl : l = [] := (pySortDesc_eq_nil_iff key l).mp hs
      subst hl
      rfl
    | cons b t =>
      have hb : pickFirstMax key l = some b := by
        rw [← ih, hs, List.head?_cons]
      simp only [pySortDesc, pickFirstMax, hs, hb, insertDesc]
      by_cases hab : key a < key b
      · simp [hab]
      · simp [hab]

/-- `pickFirstMax` returns the earliest element attaining the maximal key:
its key dominates every element, and every strictly earlier element has a
strictly smaller key. -/
theorem pickFirstMax_spec {α β : Type} [LinearOrder β] (key : α → β) :
    ∀ (l : List α) (w : α), pickFirstMax key l = some w →
      ∃ i, ∃ hi : i < l.length, l.get ⟨i, hi⟩ = w ∧
        (∀ j (hj : j < l.length), key (l.get ⟨j, hj⟩) ≤ key w) ∧
        (∀ j (hj : j < l.length), j < i → key (l.get ⟨j, hj⟩) < key w) := by
  intro l
  induction l with
  | nil =>
    intro w h
    simp [pickFirstMax] at h
  | cons a t ih =>
    intro w h
    cases hp : pickFirstMax key t with
    | none =>
      have ht : t = [] := (pickFirstMax_eq_none_iff key t).mp hp
      subst ht
      simp only [pickFirstMax] at h
      injection h with h
      subst h
      refine ⟨0, by simp, rfl, ?_, ?_⟩
      · intro j hj
        simp only [List.length_cons, List.length_nil] at hj
        have hj0 : j = 0 := by omega
        subst hj0
        exact le_refl _
      · intro j hj hji
        omega
    | some v =>
      simp only [pickFirstMax, hp] at h
      by_cases hav : key a < key v
      · rw [if_pos hav] at h
        injection h with h
        subst h
        obtain ⟨i, hi, hget, hmax, hstrict⟩ := ih v hp
        refine ⟨i + 1, by simp only [List.length_cons]; omega, hget, ?_, ?_⟩
        · intro j hj
          simp only [List.length_cons] at hj
          cases j with
          | zero => exact le_of_lt hav
          | succ j => exact hmax j (by omega)
        · intro j hj hji
          simp only [List.length_cons] at hj
          cases j with
          | zero => exact hav
          | succ j => exact hstrict j (by omega) (by omega)
      · rw [if_neg hav] at h
        injection h with h
        subst h
        obtain ⟨i, hi, hget, hmax, _⟩ := ih v hp
        refine ⟨0, by simp, rfl, ?_, ?_⟩
        · intro j hj
          simp only [List.length_cons] at hj
          cases j with
          | zero => exact le_refl _
          | succ j =>
            exact le_trans (hmax j (by omega)) (not_lt.mp hav)
        · intro j hj hji
          omega

/-- The dedup pass only drops elements, never reorders or invents them. -/
theorem dedupGo_sublist (l : List Candidate) :
    ∀ seen : List String, (dedupGo seen l).Sublist l := by
  induction l with
  | nil => intro seen; simp [dedupGo]
  | cons c cs ih =>
    intro seen
    simp only [dedupGo]
    split
    · exact (ih seen).cons c
    · exact (ih (c.url :: seen)).cons₂ c

/-- After the dedup pass, all URLs are distinct and none is in `seen`. -/
theorem dedupGo_nodup (l : List Candidate) :
    ∀ seen : List String, ((dedupGo seen l).map Candidate.url).Nodup ∧
      ∀ c ∈ dedupGo seen l, c.url ∉ seen := by
  induction l with
  | nil => intro seen; simp [dedupGo]
  | cons c cs ih =>
    intro seen
    by_cases hc : c.url ∈ seen
    · simp only [dedupGo, if_pos hc]
      exact ih seen
    · simp only [dedupGo, if_neg hc]
      obtain ⟨hnd, hmem⟩ := ih (c.url :: seen)
      refine ⟨?_, ?_⟩
      · rw [List.map_cons, List.nodup_cons]
        refine ⟨?_, hnd⟩
        intro hin
        obtain ⟨x, hx, hxu⟩ := List.mem_map.mp hin
        exact (hmem x hx) (by rw [hxu]; exact List.mem_cons_self _ _)
      · intro x hx
        rcases List.mem_cons.mp hx with h | h
        · subst h
          exact hc
        · intro hxs
          exact (hmem x h) (List.mem_cons_of_mem _ hxs)

/-- The first candidate carrying a given URL survives the dedup pass. -/
theorem dedupGo_keeps_first (u : String) (d : Candidate) :
    ∀ (l : List Candidate) (seen : List String), u ∉ seen →
      l.find? (fun x => decide (x.url = u)) = some d → d ∈ dedupGo seen l := by
  intro l
  induction l with
  | nil =>
    intro seen _ h
    simp [List.find?] at h
  | cons c cs ih =>
    intro seen hu h
    by_cases hc : c.url = u
    · rw [List.find?_cons_of_pos _ (by simp [hc])] at h
      injection h with h
      subst h
      simp only [dedupGo]
      rw [if_neg (by rw [hc]; exact hu)]
      exact List.mem_cons_self _ _
    · rw [List.find?_cons_of_neg _ (by simp [hc])] at h
      simp only [dedupGo]
      split
      · exact ih seen hu h
      · refine List.mem_cons_of_mem _ (ih (c.url :: seen) ?_ h)
        intro hmem
        rcases List.mem_cons.mp hmem with h' | h'
        · exact hc h'.symm
        · exact hu h'

/-- Structural facts about any successfully validated metadata record: it
carries the candidate URL, respects the 200px floor, and its aspect field is
the rounded width/height ratio. -/
theorem validate_image_shape {net : Net} {u n : String} {v : VMeta}
    (h : validate_image net u n = some v) :
    v.url = u ∧ 200 ≤ v.width ∧ 200 ≤ v.height ∧
      v.aspect = aspectOf v.width v.height := by
  unfold validate_image at h
  split at h
  · exact Option.noConfusion h
  · split at h
    · exact Option.noConfusion h
    · split at h
      · exact Option.noConfusion h
      · split at h
        · exact Option.noConfusion h
        · split at h
          · exact Option.noConfusion h
          · rename_i hwh
            push_neg at hwh
            injection h with h
            subst h
            exact ⟨rfl, hwh.1, hwh.2, rfl⟩

/-- Every image collected by the validation loop is either inherited from
the accumulator or is the boosted validation of one of the candidates. -/
theorem validateLoop_mem {net : Net} {name : String} :
    ∀ (cs : List Candidate) (acc : List VImage) (m : VImage),
      m ∈ validateLoop net name cs acc →
      m ∈ acc ∨ ∃ c ∈ cs, ∃ v, validate_image net c.url name = some v ∧
        m = boost net c v := by
  intro cs
  induction cs with
  | nil =>
    intro acc m hm
    exact Or.inl hm
  | cons c cs ih =>
    intro acc m hm
    cases hv : validate_image net c.url name with
    | none =>
      simp only [validateLoop, hv] at hm
      split at hm
      · exact Or.inl hm
      · rcases ih acc m hm with h | ⟨c', hc', hrest⟩
        · exact Or.inl h
        · exact Or.inr ⟨c', List.mem_cons_of_mem _ hc', hrest⟩
    | some v =>
      simp only [validateLoop, hv] at hm
      split at hm
      · rcases List.mem_append.mp hm with h | h
        · exact Or.inl h
        · exact Or.inr ⟨c, List.mem_cons_self _ _, v, hv, by simpa using h⟩
      · rcases ih _ m hm with h | ⟨c', hc', hrest⟩
        · rcases List.mem_append.mp h with h' | h'
          · exact Or.inl h'
          · exact Or.inr ⟨c, List.mem_cons_self _ _, v, hv, by simpa using h'⟩
        · exact Or.inr ⟨c', List.mem_cons_of_mem _ hc', hrest⟩

/-- How `find_product_image` computes once the accumulated candidate list is
known. -/
theorem find_eq_of_candidates {net : Net} {name url : String} {allow : Bool}
    {all : List Candidate} (h : candidatesOf net name url allow = .ok all) :
    find_product_image net name url allow =
      if all.isEmpty then ""
      else if (validatePhase net name all).isEmpty then
        (((pySortDesc (fun c => c.priority) all).head?).map Candidate.url).getD ""
      else
        (((pySortDesc score_image (validatePhase net name all)).head?).map
          VImage.url).getD "" := by
  unfold find_product_image find_product_imageE find_core
  rw [h]
  rfl

/-- `scrape_product_images` is exactly the dedup pass over the raw
extraction. -/
theorem scrape_eq_dedup (net : Net) (url name : String) :
    scrape_product_images net url name = dedupGo [] (rawCandidates net url name) := by
  unfold scrape_product_images rawCandidates
  cases net.fetchPage url <;> rfl

/-- Every candidate produced by the generic image sweep satisfies the
absolute-URL guard (provided the accumulator already does). -/
theorem genericGo_ok (net : Net) (url : String) (isOff : Bool) :
    ∀ (ts : List ImgTag) (acc : List Candidate),
      (∀ c ∈ acc, tagCandOk c = true) →
      ∀ c ∈ genericGo net url isOff ts acc, tagCandOk c = true := by
  intro ts
  induction ts with
  | nil =>
    intro acc hacc c hc
    exact hacc c hc
  | cons t ts ih =>
    intro acc hacc c hc
    cases hf : firstTruthy [t.src, t.dataSrc] with
    | none =>
      simp only [genericGo, hf] at hc
      exact ih acc hacc c hc
    | some s =>
      simp only [genericGo, hf] at hc
      split at hc
      · rename_i hguard
        simp only [Bool.and_eq_true] at hguard
        have hnew : ∀ c' ∈ acc ++ [(⟨net.urljoin url s, "img_tag",
            some (t.alt.getD ""), if isOff then 3 else 2⟩ : Candidate)],
            tagCandOk c' = true := by
          intro c' hc'
          rcases List.mem_append.mp hc' with h | h
          · exact hacc c' h
          · have hc'' : c' = (⟨net.urljoin url s, "img_tag",
                some (t.alt.getD ""), if isOff then 3 else 2⟩ : Candidate) := by
              simpa using h
            subst hc''
            unfold tagCandOk
            rw [if_pos (Or.inr rfl)]
            exact hguard.1
        by_cases hlen : 15 ≤ (acc ++ [(⟨net.urljoin url s, "img_tag",
            some (t.alt.getD ""), if isOff then 3 else 2⟩ : Candidate)]).length
        · rw [if_pos hlen] at hc
          exact hnew c hc
        · rw [if_neg hlen] at hc
          exact ih _ hnew c hc
      · exact ih acc hacc c hc

/-- Every class-matched image candidate carries an absolute (http) URL. -/
theorem classCands_ok (net : Net) (url name : String) (isOff : Bool)
    (soup : Soup) : ∀ c ∈ classCands net url name isOff soup,
      tagCandOk c = true := by
  intro c hc
  rw [classCands] at hc
  obtain ⟨t, ht, heq⟩ := List.mem_filterMap.mp hc
  cases hf : firstTruthy [t.src, t.dataSrc, t.dataLazySrc] with
  | none =>
    simp only [hf] at heq
    exact Option.noConfusion heq
  | some s =>
    simp only [hf] at heq
    split at heq
    · rename_i hguard
      injection heq with heq
      subst heq
      unfold tagCandOk
      rw [if_pos (Or.inl rfl)]
      exact hguard
    · exact Option.noConfusion heq

/-- Candidates from the `og:image` meta field are never tag-sourced, so the
guard holds vacuously. -/
theorem ogCands_ok (isOff : Bool) (soup : Soup) :
    ∀ c ∈ ogCands isOff soup, tagCandOk c = true := by
  intro c hc
  cases ho : soup.og with
  | none => simp [ogCands, ho] at hc
  | some s =>
    simp only [ogCands, ho] at hc
    split at hc
    · simp at hc
    · have hc' : c = (⟨s, "og_image", none, if isOff then 10 else 8⟩ : Candidate) := by
        simpa using hc
      subst hc'
      rfl

/-- Candidates from the `twitter:image` meta field are never tag-sourced. -/
theorem twCands_ok (isOff : Bool) (soup : Soup) :
    ∀ c ∈ twCands isOff soup, tagCandOk c = true := by
  intro c hc
  cases ho : soup.twitter with
  | none => simp [twCands, ho] at hc
  | some s =>
    simp only [twCands, ho] at hc
    split at hc
    · simp at hc
    · have hc' : c = (⟨s, "twitter_image", none, if isOff then 9 else 7⟩ : Candidate) := by
        simpa using hc
      subst hc'
      rfl

/-- Candidates from the JSON-LD blocks are never tag-sourced. -/
theorem ldCands_ok (isOff : Bool) (soup : Soup) :
    ∀ c ∈ ldCands isOff soup, tagCandOk c = true := by
  intro c hc
  rw [ldCands] at hc
  obtain ⟨o, ho, heq⟩ := List.mem_filterMap.mp hc
  cases o with
  | none => exact Option.noConfusion heq
  | some s =>
    injection heq with heq
    subst heq
    rfl

/-- Every raw extracted candidate satisfies the absolute-URL guard. -/
theorem extractRaw_ok (net : Net) (url name : String) (soup : Soup) :
    ∀ c ∈ extractRaw net url name soup, tagCandOk c = true := by
  intro c hc
  have hbase : ∀ c' ∈ ogCands (isOfficialDomain net url) soup ++
      twCands (isOfficialDomain net url) soup ++
      ldCands (isOfficialDomain net url) soup ++
      classCands net url name (isOfficialDomain net url) soup,
      tagCandOk c' = true := by
    intro c' hc'
    rcases List.mem_append.mp hc' with h | h
    · rcases List.mem_append.mp h with h' | h'
      · rcases List.mem_append.mp h' with h'' | h''
        · exact ogCands_ok _ _ c' h''
        · exact twCands_ok _ _ c' h''
      · exact ldCands_ok _ _ c' h'
    · exact classCands_ok _ _ _ _ _ c' h
  simp only [extractRaw] at hc
  split at hc
  · exact genericGo_ok net url _ soup.imgs _ hbase c hc
  · exact hbase c hc

/-- The raw candidate list of any run satisfies the absolute-URL guard. -/
theorem rawCandidates_ok (net : Net) (url name : String) :
    ∀ c ∈ rawCandidates net url name, tagCandOk c = true := by
  intro c hc
  unfold rawCandidates at hc
  cases hp : net.fetchPage url with
  | error e => simp [hp] at hc
  | ok soup =>
    simp only [hp] at hc
    exact extractRaw_ok net url name soup c hc

/-- C8 (amended): every candidate produced by `scrape_product_images` from a
class-matched or generic `<img>` tag carries an absolute URL (it passes the
code's own `startswith('http')` guard).  Candidates taken from page
metadata, social-card metadata or structured-data blocks are copied
verbatim and carry no such guarantee (see `og_candidate_relative`). -/
theorem tag_candidates_absolute (net : Net) (url name : String) :
    (scrape_product_images net url name).all tagCandOk = true := by
  rw [List.all_eq_true]
  intro c hc
  rw [scrape_eq_dedup] at hc
  exact rawCandidates_ok net url name c
    ((dedupGo_sublist (rawCandidates net url name) []).subset hc)

/-- C8 (counterexample): a page whose `og:image` content is the relative
path `/img/p.jpg` yields a candidate whose URL is not absolute — the
extraction copies metadata-derived references verbatim, without resolving
them against the page URL or checking `startswith('http')`. -/
theorem og_candidate_relative :
    scrape_product_images net8 p8 "" = [cand8] ∧
    pyStartsWith cand8.url "http" = false :=
  ⟨rfl, by decide⟩

/-- C5 (confirmed): within one extraction run the deduplicated output has
pairwise-distinct URLs, is a subsequence of the raw candidate list (so later
duplicates are dropped silently, nothing is reordered or invented), and for
every raw candidate the first-seen candidate with that URL is kept. -/
theorem extraction_dedup_first_seen (net : Net) (url name : String) :
    ((scrape_product_images net url name).map Candidate.url).Nodup ∧
    (scrape_product_images net url name).Sublist (rawCandidates net url name) ∧
    firstSeenKept (rawCandidates net url name)
      (scrape_product_images net url name) = true := by
  refine ⟨?_, ?_, ?_⟩
  · rw [scrape_eq_dedup]
    exact (dedupGo_nodup _ []).1
  · rw [scrape_eq_dedup]
    exact dedupGo_sublist _ []
  · rw [firstSeenKept, List.all_eq_true]
    intro c hc
    cases hfind : (rawCandidates net url name).find?
        (fun d => decide (d.url = c.url)) with
    | none =>
      exfalso
      have := List.find?_eq_none.mp hfind c hc
      simp at this
    | some d =>
      simp only [hfind]
      rw [decide_eq_true_eq]
      rw [scrape_eq_dedup]
      exact dedupGo_keeps_first c.url d (rawCandidates net url name) []
        (by simp) hfind

/-- C4 (confirmed): every metadata record produced by `validate_image`
satisfies the 200-pixel size floor in both dimensions; smaller images are
rejected before the record is constructed. -/
theorem validated_size_floor (net : Net) (u n : String) (v : VMeta)
    (h : validate_image net u n = some v) :
    200 ≤ v.width ∧ 200 ≤ v.height :=
  ⟨(validate_image_shape h).2.1, (validate_image_shape h).2.2.1⟩

/-- C4 witness: the Scenario-A fixture validates to a 1200x1200 record, and
the theorem applies to it. -/
theorem validated_size_floor_witness :
    200 ≤ v1.width ∧ 200 ≤ v1.height :=
  validated_size_floor net1 img1 "widget" v1 rfl

/-- C6 (confirmed): for every collaborator behaviour (arbitrary fetch,
decode and search failures included), the body of `find_product_image` under
its outer exception handler terminates in a normal return whose value is the
function's result string; no error escapes, so the only externally visible
failure mode is the empty-string `NotFound` result. -/
theorem find_product_image_never_raises (net : Net) (name url : String)
    (allow : Bool) :
    find_product_imageE net name url allow =
      .ok (find_product_image net name url allow) := by
  unfold find_product_image find_product_imageE
  cases find_core net name url allow <;> rfl

/-- C9 (confirmed): for two validated images agreeing on every field except
`priority` (the adjusted priority), the one with the larger priority never
receives a smaller score. -/
theorem score_monotone_in_priority (m : VImage) (p q : Int) (hpq : p ≤ q) :
    score_image { m with priority := p } ≤
      score_image { m with priority := q } := by
  unfold score_image
  dsimp only
  split_ifs <;> exact Int.cast_le.mpr (by omega)

/-- C9 witness: the theorem applied to the fixture image at priorities 3 and
5. -/
theorem score_monotone_in_priority_witness :
    (3 : Int) ≤ 5 ∧
      score_image { m9 with priority := 3 } ≤
        score_image { m9 with priority := 5 } :=
  ⟨by norm_num, score_monotone_in_priority m9 3 5 (by norm_num)⟩

/-- C3 (counterexample): `validate_image` constructs a metadata record from
a response whose body is 3,000,000 bytes — above the claimed ~2.5MB cap — so
the validator enforces no byte-size cap. -/
theorem validate_image_accepts_oversize :
    net3.fetchImage u3 = .ok resp3 ∧ 2500000 < resp3.contentLen ∧
    validate_image net3 u3 "phone" = some v3 :=
  ⟨rfl, by decide, rfl⟩

/-- C3 (amended): the ~2.5MB byte-size cap is enforced by
`fetch_image_data_uri`, not by `validate_image`: whenever the response body
for a URL exceeds 2,500,000 bytes, `fetch_image_data_uri` returns the empty
string. -/
theorem data_uri_rejects_oversize (net : Net) (u : String) (r : ImgResp)
    (hf : net.fetchImage u = .ok r) (hlen : 2500000 < r.contentLen) :
    fetch_image_data_uri net u = "" := by
  unfold fetch_image_data_uri
  by_cases hu : u = ""
  · rw [if_pos hu]
  · rw [if_neg hu]
    simp only [hf]
    by_cases h1 : (!r.ok2xx) = true
    · rw [if_pos h1]
    · rw [if_neg h1]
      by_cases h2 : (!(pyIn "image" (lowerStr r.contentType))) = true
      · rw [if_pos h2]
      · rw [if_neg h2, if_pos hlen]

/-- C3 witness: the oversize fixture is rejected by `fetch_image_data_uri`. -/
theorem data_uri_rejects_oversize_witness :
    2500000 < resp3.contentLen ∧ fetch_image_data_uri net3 u3 = "" :=
  ⟨by decide, data_uri_rejects_oversize net3 u3 resp3 rfl (by decide)⟩

/-- With broader search disabled, the accumulated candidates are exactly the
primary-page scrape (when a usable URL was supplied). -/
theorem candidatesOf_false (net : Net) (name url : String)
    (hu : url ≠ "" ∧ pyStartsWith url "http" = true) :
    candidatesOf net name url false = .ok (scrape_product_images net url name) := by
  simp only [candidatesOf, if_pos hu]
  have hcond : ¬(false = true ∧ (scrape_product_images net url name).length < 5) := by
    simp
  rw [if_neg hcond]

/-- C1 (corrected): in a run where extraction yields exactly one candidate,
from a trusted domain, with structured-metadata source and base priority 10,
validating to 1200x1200 with a keyword match, the scoring stage assigns
score 17 — not 13 as claimed: the adjusted priority is 10 + 2 (trust) + 1
(keyword) + 1 (resolution) = 14, and the score adds the resolution and
keyword bonuses again, 14 + 2 + 1 = 17, with no aspect penalty.  The result
is that candidate's URL (a non-empty `Found`). -/
theorem scenarioA_found_with_score_17 (net : Net) (name url : String)
    (c : Candidate) (v : VMeta)
    (hu : url ≠ "" ∧ pyStartsWith url "http" = true)
    (hscrape : scrape_product_images net url name = [c])
    (hsrc : c.source = "og_image")
    (hp : c.priority = 10)
    (htrust : officialDomains.any
      (fun o => pyIn o (lowerStr (net.netloc c.url))) = true)
    (hval : validate_image net c.url name = some v)
    (hw : v.width = 1200) (hh : v.height = 1200)
    (hk : v.has_product_keywords = true)
    (hcu : c.url ≠ "") :
    score_image (boost net c v) = 17 ∧
    find_product_image net name url false = c.url ∧
    find_product_image net name url false ≠ "" := by
  have hurl : v.url = c.url := (validate_image_shape hval).1
  have haspect : v.aspect = 1 := by
    rw [(validate_image_shape hval).2.2.2, hw, hh]
    rfl
  have hprio : (boost net c v).priority = 14 := by
    simp [boost, hurl, htrust, hk, hw, hh, hp]
  have hscore : score_image (boost net c v) = 17 := by
    have hasp : ¬((1 : ℚ) < mkRat 6 10 ∨ mkRat 18 10 < (1 : ℚ)) := by decide
    simp only [score_image]
    rw [show (boost net c v).width = v.width from rfl, hw]
    rw [show (boost net c v).height = v.height from rfl, hh]
    rw [show (boost net c v).has_product_keywords = v.has_product_keywords from rfl, hk]
    rw [show (boost net c v).aspect = v.aspect from rfl, haspect]
    rw [hprio]
    norm_num [hasp]
  have hcand : candidatesOf net name url false = .ok [c] := by
    rw [candidatesOf_false net name url hu, hscrape]
  have hvp : validatePhase net name [c] = [boost net c v] := by
    simp [validatePhase, pySortDesc, insertDesc, validateLoop, hval]
  have hfind : find_product_image net name url false = c.url := by
    rw [find_eq_of_candidates hcand]
    rw [if_neg (by simp)]
    rw [hvp]
    rw [if_neg (by simp)]
    have hsort : pySortDesc score_image [boost net c v] = [boost net c v] := rfl
    rw [hsort]
    show (boost net c v).url = c.url
    rw [show (boost net c v).url = v.url from rfl]
    exact hurl
  exact ⟨hscore, hfind, by rw [hfind]; exact hcu⟩

/-- C1 witness: the theorem applied to the Scenario-A fixture. -/
theorem scenarioA_found_with_score_17_witness :
    score_image (boost net1 cand1 v1) = 17 ∧
    find_product_image net1 "widget" p1 false = cand1.url ∧
    find_product_image net1 "widget" p1 false ≠ "" :=
  scenarioA_found_with_score_17 net1 "widget" p1 cand1 v1
    ⟨by decide, by decide⟩ rfl rfl rfl (by decide) rfl rfl rfl rfl (by decide)

/-- C1 (counterexample): a concrete run satisfying every premise of the
claim — one trusted og-image candidate with base priority 10, validated
1200x1200 with keyword match — in which the scoring stage assigns 17, not
13 (the result is still `Found` with that URL). -/
theorem scenarioA_score_ne_13 :
    candidatesOf net1 "widget" p1 false = .ok [cand1] ∧
    cand1.source = "og_image" ∧ cand1.priority = 10 ∧
    officialDomains.any
      (fun o => pyIn o (lowerStr (net1.netloc cand1.url))) = true ∧
    validatedOf net1 "widget" p1 false = .ok [m1] ∧
    m1.width = 1200 ∧ m1.height = 1200 ∧ m1.has_product_keywords = true ∧
    find_product_image net1 "widget" p1 false = cand1.url ∧
    score_image m1 = 17 ∧ score_image m1 ≠ 13 :=
  ⟨rfl, rfl, rfl, by decide, rfl, rfl, rfl, rfl, rfl, by decide, by decide⟩

/-- C2 (corrected): the winner is the first score-maximum of the validated
list in *validation order* — the order after the stable descending sort by
base priority — not in raw extraction order.  Among equal scores the
earliest validated image wins, and the winner is determined by the validated
list alone. -/
theorem winner_first_max_in_validation_order (net : Net) (name url : String)
    (allow : Bool) (vs : List VImage)
    (hv : validatedOf net name url allow = .ok vs) (hne : vs ≠ []) :
    ∃ i, ∃ hi : i < vs.length,
      find_product_image net name url allow = (vs.get ⟨i, hi⟩).url ∧
      (∀ j (hj : j < vs.length),
        score_image (vs.get ⟨j, hj⟩) ≤ score_image (vs.get ⟨i, hi⟩)) ∧
      (∀ j (hj : j < vs.length), j < i →
        score_image (vs.get ⟨j, hj⟩) < score_image (vs.get ⟨i, hi⟩)) := by
  unfold validatedOf at hv
  cases hcand : candidatesOf net name url allow with
  | error e =>
    rw [hcand] at hv
    simp only [Except.map] at hv
    exact Except.noConfusion hv
  | ok all =>
    rw [hcand] at hv
    simp only [Except.map, Except.ok.injEq] at hv
    have hvs : validatePhase net name all = vs := hv
    have hallne : all ≠ [] := by
      intro h
      subst h
      rw [← hvs] at hne
      exact hne rfl
    have h1 : ¬ all.isEmpty = true := by
      rw [List.isEmpty_iff]
      exact hallne
    have h2 : ¬ vs.isEmpty = true := by
      rw [List.isEmpty_iff]
      exact hne
    have hfind : find_product_image net name url allow =
        (((pySortDesc score_image vs).head?).map VImage.url).getD "" := by
      rw [find_eq_of_candidates hcand, if_neg h1, hvs, if_neg h2]
    cases hpick : pickFirstMax score_image vs with
    | none => exact absurd ((pickFirstMax_eq_none_iff _ _).mp hpick) hne
    | some w =>
      obtain ⟨i, hi, hget, hmax, hstrict⟩ := pickFirstMax_spec score_image vs w hpick
      refine ⟨i, hi, ?_, ?_, ?_⟩
      · rw [hfind, head?_pySortDesc, hpick, hget]
        rfl
      · intro j hj
        rw [hget]
        exact hmax j hj
      · intro j hj hji
        rw [hget]
        exact hstrict j hj hji

/-- C2 witness: the theorem applied to the tie-break fixture, whose
validated list is `[mLd, mTw]`. -/
theorem winner_first_max_in_validation_order_witness :
    ∃ i, ∃ hi : i < [mLd, mTw].length,
      find_product_image net2 "widget" p2 false = ([mLd, mTw].get ⟨i, hi⟩).url ∧
      (∀ j (hj : j < [mLd, mTw].length),
        score_image ([mLd, mTw].get ⟨j, hj⟩) ≤
          score_image ([mLd, mTw].get ⟨i, hi⟩)) ∧
      (∀ j (hj : j < [mLd, mTw].length), j < i →
        score_image ([mLd, mTw].get ⟨j, hj⟩) <
          score_image ([mLd, mTw].get ⟨i, hi⟩)) :=
  winner_first_max_in_validation_order net2 "widget" p2 false [mLd, mTw]
    rfl (by decide)

/-- C2 (counterexample): the twitter candidate is discovered first in
extraction order and ties in score (9 = 9) with the JSON-LD candidate, yet
the JSON-LD candidate wins, because ties are broken by the priority-sorted
validation order (priority 8 before 7), not by extraction order. -/
theorem tie_break_not_extraction_order :
    scrape_product_images net2 p2 "widget" = [candTw, candLd] ∧
    validatedOf net2 "widget" p2 false = .ok [mLd, mTw] ∧
    score_image mLd = score_image mTw ∧
    find_product_image net2 "widget" p2 false = candLd.url ∧
    candLd.url ≠ candTw.url :=
  ⟨rfl, rfl, by decide, rfl, by decide⟩

/-- C7 (confirmed): when candidates exist but validation yields nothing, the
result is the URL of a candidate of maximal base priority. -/
theorem fallback_highest_priority (net : Net) (name url : String)
    (allow : Bool) (all : List Candidate)
    (hcand : candidatesOf net name url allow = .ok all)
    (hne : all ≠ [])
    (hval : validatedOf net name url allow = .ok []) :
    ∃ c, c ∈ all ∧ find_product_image net name url allow = c.url ∧
      ∀ d ∈ all, d.priority ≤ c.priority := by
  have hvp : validatePhase net name all = [] := by
    unfold validatedOf at hval
    rw [hcand] at hval
    simp only [Except.map, Except.ok.injEq] at hval
    exact hval
  have h1 : ¬ all.isEmpty = true := by
    rw [List.isEmpty_iff]
    exact hne
  have hfind : find_product_image net name url allow =
      (((pySortDesc (fun c => c.priority) all).head?).map Candidate.url).getD "" := by
    rw [find_eq_of_candidates hcand, if_neg h1, hvp, if_pos (by rfl)]
  cases hpick : pickFirstMax (fun c => c.priority) all with
  | none => exact absurd ((pickFirstMax_eq_none_iff _ _).mp hpick) hne
  | some w =>
    obtain ⟨i, hi, hget, hmax, _⟩ := pickFirstMax_spec _ all w hpick
    refine ⟨w, ?_, ?_, ?_⟩
    · rw [← hget]
      exact List.get_mem all i hi
    · rw [hfind, head?_pySortDesc, hpick]
      rfl
    · intro d hd
      obtain ⟨⟨j, hj⟩, hdj⟩ := List.mem_iff_get.mp hd
      rw [← hdj]
      exact hmax j hj

/-- C7 witness: the fallback fixture — both candidates fail validation, and
the priority-8 og candidate is returned. -/
theorem fallback_highest_priority_witness :
    ∃ c, c ∈ [cand7a, cand7b] ∧
      find_product_image net7 "thing" p7 false = c.url ∧
      ∀ d ∈ [cand7a, cand7b], d.priority ≤ c.priority :=
  fallback_highest_priority net7 "thing" p7 false [cand7a, cand7b]
    rfl (by decide) rfl

/-- C10 (confirmed): whenever the run's result is non-empty, it is the URL
of one of the candidates accumulated during that run's extraction; the
pipeline never fabricates or rewrites a URL. -/
theorem result_url_from_extraction (net : Net) (name url : String)
    (allow : Bool) (all : List Candidate)
    (hcand : candidatesOf net name url allow = .ok all)
    (hne : find_product_image net name url allow ≠ "") :
    find_product_image net name url allow ∈ all.map Candidate.url := by
  rw [find_eq_of_candidates hcand] at hne ⊢
  by_cases hemp : all.isEmpty = true
  · rw [if_pos hemp] at hne
    exact absurd rfl hne
  · rw [if_neg hemp] at hne ⊢
    by_cases hvemp : (validatePhase net name all).isEmpty = true
    · rw [if_pos hvemp] at hne ⊢
      cases hs : pySortDesc (fun c => c.priority) all with
      | nil =>
        have h0 : all = [] := (pySortDesc_eq_nil_iff _ _).mp hs
        subst h0
        simp at hemp
      | cons c t =>
        have hcmem : c ∈ all := by
          have hin : c ∈ pySortDesc (fun x => x.priority) all := by
            rw [hs]
            exact List.mem_cons_self _ _
          exact (mem_pySortDesc (fun x => x.priority) c all).mp hin
        exact List.mem_map.mpr ⟨c, hcmem, rfl⟩
    · rw [if_neg hvemp] at hne ⊢
      cases hs : pySortDesc score_image (validatePhase net name all) with
      | nil =>
        have h0 : validatePhase net name all = [] := (pySortDesc_eq_nil_iff _ _).mp hs
        rw [h0] at hvemp
        simp at hvemp
      | cons m t =>
        have hmem : m ∈ validatePhase net name all := by
          have hin : m ∈ pySortDesc score_image (validatePhase net name all) := by
            rw [hs]
            exact List.mem_cons_self _ _
          exact (mem_pySortDesc score_image m _).mp hin
        unfold validatePhase at hmem
        rcases validateLoop_mem _ [] m hmem with h | ⟨c, hc, v, hvv, hmv⟩
        · simp at h
        · have hcall : c ∈ all :=
            (mem_pySortDesc _ c all).mp (List.mem_of_mem_take hc)
          have hmurl : m.url = c.url := by
            rw [hmv]
            exact (validate_image_shape hvv).1
          refine List.mem_map.mpr ⟨c, hcall, ?_⟩
          rw [← hmurl]
          rfl

/-- C10 witness: the Scenario-A fixture returns a non-empty URL, and it is
among the extracted candidate URLs. -/
theorem result_url_from_extraction_witness :
    candidatesOf net1 "widget" p1 false = .ok [cand1] ∧
    find_product_image net1 "widget" p1 false ≠ "" ∧
    find_product_image net1 "widget" p1 false ∈ [cand1].map Candidate.url :=
  ⟨rfl, by decide,
    result_url_from_extraction net1 "widget" p1 false [cand1] rfl (by decide)⟩
